import Mathlib

/-!
Verification development for the slackline physics engine.

The static solver (src/integrator.py) is embedded as a fuel-indexed function
over exact rationals, with the inner adaptive ODE solver (scipy solve_ivp)
abstracted as a sampling oracle.  The jump conditions at point masses
(src/calculus.py, with the ideal Lagrangian of src/lagrangians.py) and the
dynamics discretizer (src/core/dynamics.py) are embedded over the real
numbers, as propositional relations.  The JSON surface (src/api.py,
src/core/slacklines.py) is embedded over an inductive JSON value type.
-/

namespace Slackline

/-- One sample of the state arrays `(x, y, n, y_x, n_x)` accumulated by
`integrate` in src/integrator.py. -/
structure Sample where
  x : ℚ
  y : ℚ
  n : ℚ
  yx : ℚ
  nx : ℚ
deriving DecidableEq, Repr

/-- The initial conditions `(y0, n0, y_x0, n_x0)` of one integration segment
(src/integrator.py lines 48-52 for the first segment, and the output of
`mass_boundary_conditions` for later segments). -/
structure InitState where
  y : ℚ
  n : ℚ
  yx : ℚ
  nx : ℚ
deriving DecidableEq, Repr

/-- `masses = [m for m in masses if m[0] > 0.0]` (src/integrator.py line 36):
only loads at nonpositive positions are dropped before integration. -/
def removeAnchorMasses (masses : List (ℚ × ℚ)) : List (ℚ × ℚ) :=
  masses.filter (fun p => 0 < p.1)

/-- The loads for which the removal loop prints a diagnostic
(src/integrator.py lines 33-35 warn exactly when `x == 0`). -/
def anchorWarnings (masses : List (ℚ × ℚ)) : List (ℚ × ℚ) :=
  masses.filter (fun p => p.1 = 0)

/-- `np.argmax(v > 0.0)` on a list: index of the first positive entry, and 0
when no entry is positive (numpy returns 0 on an all-false mask). -/
def argmaxPos (ys : List ℚ) : ℕ :=
  let k := ys.findIdx (fun v => decide (0 < v))
  if k = ys.length then 0 else k

/-- Errors of the embedded integrator: `SlacklineTooLongError`
(src/integrator.py line 117), the bare `Exception` raised by
`mass_boundary_conditions` (src/calculus.py line 104), and a Python runtime
error such as indexing an empty array. -/
inductive IntErr where
  | tooLong
  | jumpFailed
  | internal
deriving DecidableEq, Repr

/-- Result of the embedded `integrate`: the accumulated samples, the number of
point loads whose jump conditions were applied, and whether the
"masses were ignored" warning (src/integrator.py line 107) was printed. -/
structure IntResult where
  samples : List Sample
  applied : ℕ
  ignoredWarning : Bool
deriving DecidableEq, Repr

/-- The right-anchor finalization of `integrate` (src/integrator.py lines
90-103): trim the current segment at the first strictly positive `y`, append
it to the accumulated arrays, and append an interpolated anchor sample with
`y = 0.0` exactly.  `none` models the Python IndexError hit when the
accumulated arrays are empty. -/
def finalizeCrossing (acc sol : List Sample) : Option (List Sample) :=
  match (acc ++ sol.take (argmaxPos (sol.map (fun s => s.y)))).getLast? with
  | none => none
  | some last =>
      some ((acc ++ sol.take (argmaxPos (sol.map (fun s => s.y)))) ++
        [⟨last.x + -last.y / last.yx, 0,
          last.n + -last.y / last.yx * last.nx, last.yx, last.nx⟩])

/-- The clamp `if L + last_x > length_cutoff: L = length_cutoff - last_x`
(src/integrator.py lines 75-76). -/
def clampLen (cutoff x0 L : ℚ) : ℚ :=
  if cutoff < L + x0 then cutoff - x0 else L

/-- The target length of the next segment: the distance to the next load,
or the initial guess 1000 for the final segment (src/integrator.py lines
67-70). -/
def nextSegLen (x : ℚ) (rest : List (ℚ × ℚ)) : ℚ :=
  match rest with
  | (p2, _) :: _ => p2 - x
  | [] => 1000

/-- The segment loop of `integrate` (src/integrator.py lines 63-134).

`solver x0 s x1` abstracts `solve_ivp` over `np.linspace(x0, x1, 1000)`
with initial state `s`; `jump s M` abstracts `mass_boundary_conditions`
at the arrival sample `s` for a load of mass `M` (`none` models its raise).
`ms` is the list of loads not yet reached, `x0` the current `last_x`, `appl`
the number of jumps applied so far, `L` the current segment length, and the
fuel bounds the number of loop iterations (the Python loop is unbounded). -/
def integrateGrow (solver : ℚ → InitState → ℚ → List Sample)
    (jump : Sample → ℚ → Option InitState) (cutoff : ℚ) :
    List (ℚ × ℚ) → ℚ → InitState → List Sample → ℕ → ℚ → ℕ →
    Except IntErr IntResult
  | _, _, _, _, _, _, 0 => .error .internal
  | ms, x0, s, acc, appl, L, fuel + 1 =>
      match (solver x0 s (x0 + clampLen cutoff x0 L)).getLast? with
      | none => .error .internal
      | some lastSol =>
        if 0 ≤ lastSol.y then
          match finalizeCrossing acc (solver x0 s (x0 + clampLen cutoff x0 L)) with
          | none => .error .internal
          | some out => .ok ⟨out, appl, decide (ms ≠ [])⟩
        else
          match ms with
          | [] =>
              if cutoff ≤ clampLen cutoff x0 L + x0 then .error .tooLong
              else integrateGrow solver jump cutoff [] x0 s acc appl
                (clampLen cutoff x0 L * 2) fuel
          | (_, M) :: rest =>
              match (acc ++ solver x0 s (x0 + clampLen cutoff x0 L)).getLast? with
              | none => .error .internal
              | some lastS =>
                match jump lastS M with
                | none => .error .jumpFailed
                | some s' =>
                    integrateGrow solver jump cutoff rest lastS.x s'
                      (acc ++ solver x0 s (x0 + clampLen cutoff x0 L))
                      (appl + 1) (nextSegLen lastS.x rest) fuel

/-- The embedded `integrate` (src/integrator.py lines 12-137): drop loads at
nonpositive positions, then run the segment loop from `last_x = 0` with the
first segment length taken from the first load (or the initial guess 1000). -/
def integrateModel (solver : ℚ → InitState → ℚ → List Sample)
    (jump : Sample → ℚ → Option InitState)
    (masses : List (ℚ × ℚ)) (cutoff : ℚ) (s0 : InitState) (fuel : ℕ) :
    Except IntErr IntResult :=
  integrateGrow solver jump cutoff (removeAnchorMasses masses) 0 s0 [] 0
    (nextSegLen 0 (removeAnchorMasses masses)) fuel

/-- The sample grid `np.linspace(x0, x1, num)` (src/integrator.py line 78). -/
def linspaceQ (x0 x1 : ℚ) (num : ℕ) : List ℚ :=
  (List.range num).map
    (fun i : ℕ => x0 + (x1 - x0) * (i : ℚ) / ((num : ℚ) - 1))

/-- The body of the binary search of `integrate_natural_length`
(src/integrator.py lines 183-198), with the inner
`integrate_length_tension` call abstracted as an oracle `f` mapping the
midpoint anchor tension to the final natural length `n[-1]`.  The Python
loop is `while True`; the fuel bounds the number of iterations and `none`
means the bound was reached without the loop returning. -/
def natSearchGo (f : ℚ → ℚ) (target : ℚ) : ℕ → ℚ → ℚ → Option ℚ
  | 0, _, _ => none
  | fuel + 1, a, b =>
      if |f ((a + b) / 2) - target| < 1 / 10 then some ((a + b) / 2)
      else if target < f ((a + b) / 2) then
        natSearchGo f target fuel ((a + b) / 2) b
      else natSearchGo f target fuel a ((a + b) / 2)

/-- One bracket update of the natural-length search: bisect, raise the lower
bound when the oracle value exceeds the target, otherwise lower the upper
bound (src/integrator.py lines 195-198). -/
def natSearchStep (f : ℚ → ℚ) (target : ℚ) (ab : ℚ × ℚ) : ℚ × ℚ :=
  if target < f ((ab.1 + ab.2) / 2) then ((ab.1 + ab.2) / 2, ab.2)
  else (ab.1, (ab.1 + ab.2) / 2)

/-- The midpoint of a search bracket. -/
def midQ (ab : ℚ × ℚ) : ℚ := (ab.1 + ab.2) / 2

/-- The bracket after `k` updates of the natural-length search. -/
def natBracket (f : ℚ → ℚ) (target : ℚ) (ab : ℚ × ℚ) (k : ℕ) : ℚ × ℚ :=
  (natSearchStep f target)^[k] ab

/-- The tolerance test of the natural-length search: the oracle value at the
bracket midpoint is within 0.1 of the target (src/integrator.py line 193). -/
def natHit (f : ℚ → ℚ) (target : ℚ) (ab : ℚ × ℚ) : Prop :=
  |f (midQ ab) - target| < 1 / 10

/-- The embedded `integrate_natural_length` (src/integrator.py lines
171-198): binary search on the anchor tension starting from the bracket
`[natural_length * m * g, 50000]`. -/
def integrateNaturalLength (f : ℚ → ℚ) (m g naturalLength : ℚ) (fuel : ℕ) :
    Option ℚ :=
  natSearchGo f naturalLength fuel (naturalLength * m * g) 50000

/-- The body of the binary search of `integrate_length_tension`
(src/integrator.py lines 150-169), with the inner `integrate` call
abstracted as an oracle mapping the midpoint anchor angle to either
`SlacklineTooLongError` or the final horizontal coordinate `x[-1]`. -/
def lengthTensionGo (orc : ℚ → Except Unit ℚ) (gapLength : ℚ) :
    ℕ → ℚ → ℚ → Option ℚ
  | 0, _, _ => none
  | fuel + 1, a, b =>
      match orc ((a + b) / 2) with
      | .error _ => lengthTensionGo orc gapLength fuel a ((a + b) / 2)
      | .ok xf =>
          if |xf - gapLength| < 1 / 10 then some ((a + b) / 2)
          else if gapLength < xf then
            lengthTensionGo orc gapLength fuel a ((a + b) / 2)
          else lengthTensionGo orc gapLength fuel ((a + b) / 2) b

/-- The embedded `integrate_length_tension` (src/integrator.py lines
140-169).  The lower bound is the literal `0.001`; the upper bound
`np.pi / 4` is an irrational constant, so the float actually used is
passed as the parameter `b0`. -/
def integrateLengthTension (orc : ℚ → Except Unit ℚ) (gapLength : ℚ)
    (b0 : ℚ) (fuel : ℕ) : Option ℚ :=
  lengthTensionGo orc gapLength fuel (1 / 1000) b0

/-- The natural-length search terminates: some iteration count returns. -/
def NatSearchTerminates (f : ℚ → ℚ) (target a b : ℚ) : Prop :=
  ∃ fuel, (natSearchGo f target fuel a b).isSome

/-- The length-tension search terminates: some iteration count returns. -/
def LTSearchTerminates (orc : ℚ → Except Unit ℚ) (gapLength a b : ℚ) : Prop :=
  ∃ fuel, (lengthTensionGo orc gapLength fuel a b).isSome

/-- A JSON value (numbers idealized as exact rationals; the schema forbids
NaN and Infinity). -/
inductive JVal where
  | num : ℚ → JVal
  | str : String → JVal
  | arr : List JVal → JVal
  | obj : List (String × JVal) → JVal
deriving BEq

/-- Key lookup on a JSON object (`Box` attribute access). -/
def JVal.getKey (j : JVal) (k : String) : Option JVal :=
  match j with
  | .obj kvs => kvs.lookup k
  | _ => none

/-- The key list of a JSON object. -/
def JVal.keysOf (j : JVal) : List String :=
  match j with
  | .obj kvs => kvs.map (fun kv => kv.1)
  | _ => []

/-- The webbing parameter set of src/core/slacklines.py. -/
structure Webbing where
  name : String
  m : ℚ
  g : ℚ
  K : ℚ
deriving DecidableEq, Repr

/-- `Slackline.to_box` (src/core/slacklines.py lines 21-27). -/
def Webbing.toBox (s : Webbing) : JVal :=
  .obj [("name", .str s.name), ("m", .num s.m), ("g", .num s.g),
        ("K", .num s.K)]

/-- `Slackline.from_box` (src/core/slacklines.py lines 29-36); `none` models
the KeyError raised by a missing or ill-typed attribute. -/
def Webbing.fromBox (j : JVal) : Option Webbing :=
  match j.getKey "name", j.getKey "m", j.getKey "g", j.getKey "K" with
  | some (.str name), some (.num m), some (.num g), some (.num K) =>
      some ⟨name, m, g, K⟩
  | _, _, _, _ => none

/-- The `Constraints` data of src/api.py (the cached `foel`/`mbcs`
precomputations are derived values and carry no independent state). -/
structure Constraints where
  slackline : Webbing
  gap_length : ℚ
  anchor_tension : ℚ
  slackliners : List (ℚ × ℚ)
deriving DecidableEq, Repr

/-- The `ValueError`s of `Constraints.add_slackliner`
(src/api.py lines 144-147). -/
inductive ApiErr where
  | invalidPosition
  | invalidMass
deriving DecidableEq, Repr

/-- `Constraints.add_slackliner` (src/api.py lines 136-157): reject a
position outside `[0, gap_length]`, then a nonpositive mass, else append. -/
def addSlackliner (c : Constraints) (position mass : ℚ) :
    Except ApiErr Constraints :=
  if position < 0 ∨ c.gap_length < position then .error .invalidPosition
  else if mass ≤ 0 then .error .invalidMass
  else .ok { c with slackliners := c.slackliners ++ [(position, mass)] }

/-- `Constraints.to_json` (src/api.py lines 204-214), at the level of the
JSON value produced: keys `slackline`, `gap_length`, `anchor_tension`,
`slackliners`. -/
def constraintsToJson (c : Constraints) : JVal :=
  .obj [("slackline", c.slackline.toBox),
        ("gap_length", .num c.gap_length),
        ("anchor_tension", .num c.anchor_tension),
        ("slackliners", .arr (c.slackliners.map
          (fun p => .arr [.num p.1, .num p.2])))]

/-- Failures of `Constraints.from_json`: a missing/ill-typed key, or a
`ValueError` propagated from `add_slackliner`. -/
inductive FromJsonErr where
  | parseFailed
  | api (e : ApiErr)
deriving DecidableEq, Repr

/-- The `add_slackliner` loop of `Constraints.from_json`
(src/api.py lines 230-231). -/
def addAll (c : Constraints) : List (ℚ × ℚ) → Except ApiErr Constraints
  | [] => .ok c
  | (p, m) :: rest => do
      let c' ← addSlackliner c p m
      addAll c' rest

/-- Decode one `[x, M]` load pair. -/
def decodeLoad (j : JVal) : Option (ℚ × ℚ) :=
  match j with
  | .arr [.num p, .num m] => some (p, m)
  | _ => none

/-- The decoded `slackline` attribute of a Constraints JSON value. -/
def getWebbing (j : JVal) : Option Webbing :=
  match j.getKey "slackline" with
  | some b => Webbing.fromBox b
  | none => none

/-- The decoded `slackliners` attribute of a Constraints JSON value. -/
def getLoadsArr (j : JVal) : Option (List (ℚ × ℚ)) :=
  match j.getKey "slackliners" with
  | some (.arr loads) => loads.mapM decodeLoad
  | _ => none

/-- `Constraints.from_json` (src/api.py lines 216-232) applied to an
already-parsed JSON value: rebuild the base object from the `slackline`,
`gap_length` and `anchor_tension` keys, then re-add every load from the
`slackliners` key through `add_slackliner`. -/
def constraintsFromJson (j : JVal) : Except FromJsonErr Constraints :=
  match getWebbing j, j.getKey "gap_length", j.getKey "anchor_tension",
        getLoadsArr j with
  | some sl, some (.num gap), some (.num tension), some pairs =>
      match addAll ⟨sl, gap, tension, []⟩ pairs with
      | .error e => .error (.api e)
      | .ok c => .ok c
  | _, _, _, _ => .error .parseFailed

/-- The `Rig` arrays of src/api.py lines 24-43. -/
structure Rig where
  x : List ℚ
  n : List ℚ
  l : List ℚ
  y : List ℚ
  T : List ℚ
  A : List ℚ
deriving DecidableEq, Repr

/-- `Rig.to_dict`/`Rig.to_json` (src/api.py lines 44-61): the six named
arrays, in source order. -/
def rigToJson (r : Rig) : JVal :=
  .obj [("x", .arr (r.x.map .num)), ("n", .arr (r.n.map .num)),
        ("l", .arr (r.l.map .num)), ("y", .arr (r.y.map .num)),
        ("T", .arr (r.T.map .num)), ("A", .arr (r.A.map .num))]

/-- Decode a JSON array of numbers. -/
def decodeNums (j : JVal) : Option (List ℚ) :=
  match j with
  | .arr vs => vs.mapM (fun v => match v with | .num q => some q | _ => none)
  | _ => none

/-- A decoded numeric array attribute of a Rig JSON value. -/
def getNums (j : JVal) (k : String) : Option (List ℚ) :=
  match j.getKey k with
  | some v => decodeNums v
  | none => none

/-- `Rig.from_json` (src/api.py lines 63-76) applied to an already-parsed
JSON value. -/
def rigFromJson (j : JVal) : Option Rig :=
  match getNums j "x", getNums j "n", getNums j "l", getNums j "y",
        getNums j "T", getNums j "A" with
  | some x, some n, some l, some y, some T, some A =>
      some ⟨x, n, l, y, T, A⟩
  | _, _, _, _, _, _ => none

/-- First jump equation at a point load (src/calculus.py lines 94-96):
`dL/dy_x(right) - dL/dy_x(left) = M*g`, where for the ideal Lagrangian
`L = m*g*y*n' + K/2*(1+y'^2)/n' - K*sqrt(1+y'^2) + K/2*n'`
(src/lagrangians.py lines 13-17) the momentum is
`dL/dy' = K*y'/n' - K*y'/sqrt(1+y'^2)`. -/
def JumpEq1 (K g M aL bL aR bR : ℝ) : Prop :=
  (K * aR / bR - K * aR / Real.sqrt (1 + aR ^ 2))
    - (K * aL / bL - K * aL / Real.sqrt (1 + aL ^ 2)) = M * g

/-- Second jump equation at a point load (src/calculus.py lines 95-96):
`dL/dn_x(right) - dL/dn_x(left) = 0`, where for the ideal Lagrangian
`dL/dn' = m*g*y - K/2*(1+y'^2)/n'^2 + K/2`. -/
def JumpEq2 (m g yv K aL bL aR bR : ℝ) : Prop :=
  (m * g * yv - K / 2 * (1 + aR ^ 2) / bR ^ 2 + K / 2)
    - (m * g * yv - K / 2 * (1 + aL ^ 2) / bL ^ 2 + K / 2) = 0

/-- The selection filter of `mass_boundary_conditions` (src/calculus.py lines
98-101): a candidate `(a, b)` qualifies when it solves both jump equations
and `b > 0` (all embedded candidates are real by type). -/
def Qualifies (m g yv K M aL bL : ℝ) (r : ℝ × ℝ) : Prop :=
  JumpEq1 K g M aL bL r.1 r.2 ∧ JumpEq2 m g yv K aL bL r.1 r.2 ∧ 0 < r.2

/-- The result of the root loop of `mass_boundary_conditions`
(src/calculus.py lines 99-104) on the candidate list produced by the
symbolic solver: the first qualifying candidate is returned, and `none`
models the raised exception when no candidate qualifies. -/
inductive FirstQualifying (Q : ℝ × ℝ → Prop) :
    List (ℝ × ℝ) → Option (ℝ × ℝ) → Prop
  | nil : FirstQualifying Q [] none
  | found (r : ℝ × ℝ) (rest : List (ℝ × ℝ)) :
      Q r → FirstQualifying Q (r :: rest) (some r)
  | skip (r : ℝ × ℝ) (rest : List (ℝ × ℝ)) (res : Option (ℝ × ℝ)) :
      ¬ Q r → FirstQualifying Q rest res → FirstQualifying Q (r :: rest) res

/-- Parameters of the dynamics discretizer `DynamicSlackline.__init__`
(src/core/dynamics.py lines 23-60): node count, elastic constant, gravity,
uniform node spacing, per-segment equilibrium natural lengths, per-node
lumped masses, and the damping ratio. -/
structure DynParams where
  N : ℕ
  K : ℝ
  g : ℝ
  dx : ℝ
  dnEq : ℕ → ℝ
  segMass : ℕ → ℝ
  dampRatio : ℝ

/-- `np.gradient(y, x)` on a uniform grid of `N` points with spacing `dx`:
one-sided differences at the two edges, central differences inside. -/
def IsNpGradient (N : ℕ) (dx : ℝ) (y gr : ℕ → ℝ) : Prop :=
  gr 0 = (y 1 - y 0) / dx ∧
  gr (N - 1) = (y (N - 1) - y (N - 2)) / dx ∧
  ∀ i, 0 < i → i < N - 1 → gr i = (y (i + 1) - y (i - 1)) / (2 * dx)

/-- The per-node lumped masses of `DynamicSlackline.__init__`
(src/core/dynamics.py lines 53-57):
`segment_mass = m * np.sqrt(1 + np.gradient(y_eq, x)**2) * dx`. -/
def IsSegMassArr (N : ℕ) (rho dx : ℝ) (y mass : ℕ → ℝ) : Prop :=
  ∃ gr, IsNpGradient N dx y gr ∧
    ∀ i, i < N → mass i = rho * Real.sqrt (1 + gr i ^ 2) * dx

/-- Modelled from the spec (section 4.F), for comparison with the source:
`m_node[i] = rho * dl_eq_half_left + rho * dl_eq_half_right` with half the
equilibrium arclength of each adjacent segment, and massless boundary
nodes. -/
def IsSpecNodeMass (N : ℕ) (rho dx : ℝ) (y mass : ℕ → ℝ) : Prop :=
  mass 0 = 0 ∧ mass (N - 1) = 0 ∧
  ∀ i, 0 < i → i < N - 1 →
    mass i = rho * (Real.sqrt (dx ^ 2 + (y i - y (i - 1)) ^ 2) / 2
      + Real.sqrt (dx ^ 2 + (y (i + 1) - y i) ^ 2) / 2)

/-- The state derivative of `DynamicSlackline.equations_of_motion`
(src/core/dynamics.py lines 92-186): position derivatives are the
velocities; the net vertical force on a node is the clipped elastic tension
from the two adjacent segments (each guarded by `dl > 1e-10`; real
arclengths are always finite), minus gravity, minus viscous damping, plus
the external forcing sample; interior accelerations are force over lumped
mass; and the two boundary accelerations are overwritten with zero. -/
def IsEomDeriv (p : DynParams) (fext : ℕ → ℝ) (y v dy dv : ℕ → ℝ) : Prop :=
  (∀ i, dy i = v i) ∧
  (∀ i, i < p.N →
    dv i = if i = 0 ∨ i = p.N - 1 then 0
      else
        (let dyL := y i - y (i - 1)
         let dlL := Real.sqrt (p.dx ^ 2 + dyL ^ 2)
         let tL := if 1 / 10000000000 < dlL then
             p.K * min (max ((dlL - p.dnEq (i - 1)) / p.dnEq (i - 1))
               (-(1 / 2))) 2 * (dyL / dlL)
           else 0
         let dyR := y (i + 1) - y i
         let dlR := Real.sqrt (p.dx ^ 2 + dyR ^ 2)
         let tR := if 1 / 10000000000 < dlR then
             p.K * min (max ((dlR - p.dnEq i) / p.dnEq i) (-(1 / 2))) 2
               * (dyR / dlR)
           else 0
         tL - tR - p.segMass i * p.g
           - p.dampRatio * 2 * Real.sqrt (p.K * p.segMass i / p.dnEq i) * v i
           + fext i) / p.segMass i)

/-- A dynamic state: node positions and node velocities. -/
def DState : Type := (ℕ → ℝ) × (ℕ → ℝ)

/-- A state derivative: position and velocity derivatives. -/
def DDeriv : Type := (ℕ → ℝ) × (ℕ → ℝ)

/-- The linear combination `state + h * sum(c_j * k_j)` used by every stage
and output of an explicit Runge-Kutta scheme (solve_ivp RK45, including its
dense output). -/
def combState (base : DState) (h : ℝ) (ks : List (ℝ × DDeriv)) : DState :=
  (fun i => base.1 i + h * (ks.map (fun cd => cd.1 * cd.2.1 i)).sum,
   fun i => base.2 i + h * (ks.map (fun cd => cd.1 * cd.2.2 i)).sum)

/-- The stage derivatives of one explicit Runge-Kutta step from `base`:
each stage evaluates the equations of motion (under some forcing sample,
which may vary with the stage time) at a linear combination of `base` with
the earlier stages. -/
inductive Stages (p : DynParams) (base : DState) (h : ℝ) :
    List DDeriv → Prop
  | nil : Stages p base h []
  | cons (ks : List DDeriv) (coeffs : List ℝ) (fext : ℕ → ℝ) (k : DDeriv) :
      Stages p base h ks →
      IsEomDeriv p fext (combState base h (coeffs.zip ks)).1
        (combState base h (coeffs.zip ks)).2 k.1 k.2 →
      Stages p base h (ks ++ [k])

/-- One explicit Runge-Kutta update (any tableau, any step size): the next
state is a linear combination of the base state with stage derivatives of
the equations of motion. -/
def IsRKStep (p : DynParams) (base next : DState) : Prop :=
  ∃ (h : ℝ) (ks : List DDeriv) (bs : List ℝ),
    Stages p base h ks ∧ next = combState base h (bs.zip ks)

/-- Both anchors pinned: boundary positions at their equilibrium values and
boundary velocities zero (`DynamicSlackline.simulate`, src/core/dynamics.py
lines 217-221, forces exactly this at the initial state). -/
def PinnedEnds (p : DynParams) (c0 cN : ℝ) (st : DState) : Prop :=
  st.1 0 = c0 ∧ st.1 (p.N - 1) = cN ∧ st.2 0 = 0 ∧ st.2 (p.N - 1) = 0

instance {ε α : Type} [DecidableEq ε] [DecidableEq α] :
    DecidableEq (Except ε α) := fun a b =>
  match a, b with
  | .ok x, .ok y =>
      if h : x = y then .isTrue (by rw [h]) else
        .isFalse (by intro hc; cases hc; exact h rfl)
  | .error x, .error y =>
      if h : x = y then .isTrue (by rw [h]) else
        .isFalse (by intro hc; cases hc; exact h rfl)
  | .ok _, .error _ => .isFalse (by intro hc; cases hc)
  | .error _, .ok _ => .isFalse (by intro hc; cases hc)

/-- A concrete sampling oracle: starts at the supplied initial state (as
`solve_ivp` with `t_eval` does), descends below the anchor line, and ends
just above it, so the anchor-crossing branch of `integrate` fires. -/
def cSolver (x0 : ℚ) (s : InitState) (_x1 : ℚ) : List Sample :=
  [⟨x0, s.y, s.n, s.yx, s.nx⟩,
   ⟨x0 + 1, -(1 / 10), 1, -(1 / 20), 1⟩,
   ⟨x0 + 2, -(1 / 20), 2, 1 / 20, 1⟩,
   ⟨x0 + 3, 1 / 100, 3, 1 / 20, 1⟩]

/-- Like `cSolver` but with a final slope that makes the interpolated
anchor point land two units past the last kept sample. -/
def cSolver2 (x0 : ℚ) (s : InitState) (_x1 : ℚ) : List Sample :=
  [⟨x0, s.y, s.n, s.yx, s.nx⟩,
   ⟨x0 + 1, -(1 / 10), 1, -(1 / 20), 1⟩,
   ⟨x0 + 2, -(1 / 20), 2, 1 / 40, 1⟩,
   ⟨x0 + 3, 1 / 100, 3, 1 / 40, 1⟩]

/-- A jump-condition oracle that always fails (never consulted on runs
without point loads). -/
def noJump (_s : Sample) (_m : ℚ) : Option InitState := none

/-- The initial state used by the concrete runs: `y0 = 0`, `n0 = 0`, a
descending initial slope and a positive `n_x0`. -/
def cInit : InitState := ⟨0, 0, -(1 / 20), 1⟩

/-- The profile produced by `integrateModel cSolver noJump [] 10000 cInit 5`:
the three samples with `y ≤ 0` plus the interpolated anchor sample. -/
def cOut : List Sample :=
  [⟨0, 0, 0, -(1 / 20), 1⟩,
   ⟨1, -(1 / 10), 1, -(1 / 20), 1⟩,
   ⟨2, -(1 / 20), 2, 1 / 20, 1⟩,
   ⟨3, 0, 3, 1 / 20, 1⟩]

/-- The profile produced by `integrateModel cSolver2 noJump [] 10000 cInit 5`:
its first two grid gaps are 1 but the appended anchor gap is 2. -/
def cOut2 : List Sample :=
  [⟨0, 0, 0, -(1 / 20), 1⟩,
   ⟨1, -(1 / 10), 1, -(1 / 20), 1⟩,
   ⟨2, -(1 / 20), 2, 1 / 40, 1⟩,
   ⟨4, 0, 4, 1 / 40, 1⟩]

/-- The Dyneemite Pro webbing of src/core/slacklines.py line 40. -/
def dyneemitePro : Webbing := ⟨"Dyneemite Pro", 88 / 1000, 981 / 100, 250000⟩

/-- A concrete constraints value: scenario S2 (25 m gap, 2000 N standing
tension, one 80 kg slackliner at midspan). -/
def wConstraints : Constraints := ⟨dyneemitePro, 25, 2000, [(25 / 2, 80)]⟩

/-- A small concrete rig for round-trip checks. -/
def wRig : Rig := ⟨[0, 1], [0, 1], [0, 1], [0, 0], [2000, 2000], [0, 0]⟩

/-- Concrete dynamics parameters with two (boundary-only) nodes. -/
def pZero : DynParams :=
  { N := 2, K := 1, g := 1, dx := 1, dnEq := fun _ => 1,
    segMass := fun _ => 1, dampRatio := 1 }

/-- The all-zero dynamic state. -/
def stZero : DState := (fun _ => 0, fun _ => 0)

/-- A sampling oracle that emits a 4-point `linspace` grid (the source uses
1000 points per sub-attempt; the grid size is irrelevant to the spacing
argument), descending below the anchor and crossing at the last point. -/
def lSolver (x0 : ℚ) (_s : InitState) (x1 : ℚ) : List Sample :=
  (linspaceQ x0 x1 4).map
    (fun xc => ⟨xc, if x1 ≤ xc then 1 else -(1 : ℚ), 0, 1, 1⟩)

/-- The profile produced by `integrateModel lSolver noJump [] 10000 cInit 5`:
three uniformly spaced samples and the appended anchor point. -/
def lOut : List Sample :=
  [⟨0, -(1 : ℚ), 0, 1, 1⟩, ⟨1000 / 3, -(1 : ℚ), 0, 1, 1⟩,
   ⟨2000 / 3, -(1 : ℚ), 0, 1, 1⟩, ⟨2000 / 3 + 1, 0, 1, 1, 1⟩]

theorem mem_take_findIdx {α : Type _} (p : α → Bool) :
    ∀ (l : List α) (x : α), x ∈ l.take (l.findIdx p) → p x = false := by
  intro l
  induction l with
  | nil => intro x hx; simp at hx
  | cons a t ih =>
      intro x hx
      rw [List.findIdx_cons] at hx
      cases hpa : p a with
      | true => rw [hpa] at hx; simp at hx
      | false =>
          rw [hpa] at hx
          simp only [cond_false, List.take_succ_cons, List.mem_cons] at hx
          rcases hx with rfl | hx
          · exact hpa
          · exact ih x hx

theorem take_argmaxPos_nonpos (sol : List Sample) (s : Sample)
    (hs : s ∈ sol.take (argmaxPos (sol.map (fun t => t.y)))) : s.y ≤ 0 := by
  unfold argmaxPos at hs
  by_cases h : (sol.map (fun t => t.y)).findIdx (fun v => decide (0 < v))
      = (sol.map (fun t => t.y)).length
  · rw [if_pos h] at hs; simp at hs
  · rw [if_neg h] at hs
    have hy : s.y ∈ (sol.map (fun t => t.y)).take
        ((sol.map (fun t => t.y)).findIdx (fun v => decide (0 < v))) := by
      rw [← List.map_take]
      exact List.mem_map_of_mem _ hs
    have := mem_take_findIdx (fun v => decide (0 < v)) _ _ hy
    simp only [decide_eq_false_iff_not, not_lt] at this
    exact this

theorem finalize_nonpos (acc sol out : List Sample)
    (hacc : ∀ t ∈ acc, t.y ≤ 0)
    (h : finalizeCrossing acc sol = some out) : ∀ t ∈ out, t.y ≤ 0 := by
  unfold finalizeCrossing at h
  split at h
  · exact absurd h (by simp)
  · rename_i last hlast
    simp only [Option.some.injEq] at h
    subst h
    intro t ht
    rcases List.mem_append.mp ht with hk | ha
    · rcases List.mem_append.mp hk with h1 | h2
      · exact hacc t h1
      · exact take_argmaxPos_nonpos sol t h2
    · simp only [List.mem_singleton] at ha
      subst ha
      exact le_refl 0

theorem finalize_last (acc sol out : List Sample)
    (h : finalizeCrossing acc sol = some out) :
    ∃ a, out.getLast? = some a ∧ a.y = 0 := by
  unfold finalizeCrossing at h
  split at h
  · exact absurd h (by simp)
  · rename_i last hlast
    simp only [Option.some.injEq] at h
    subst h
    exact ⟨_, List.getLast?_concat _, rfl⟩

theorem finalize_head (acc sol out : List Sample)
    (hacc : ∀ hd ∈ acc.head?, hd.y = 0)
    (hsol : acc = [] → sol.head?.map (fun t => t.y) = some 0)
    (h : finalizeCrossing acc sol = some out) :
    ∃ hd t, out = hd :: t ∧ hd.y = 0 := by
  unfold finalizeCrossing at h
  split at h
  · exact absurd h (by simp)
  · rename_i last hlast
    simp only [Option.some.injEq] at h
    subst h
    cases acc with
    | cons a t =>
        simp only [List.cons_append]
        exact ⟨a, _, rfl, hacc a (by simp)⟩
    | nil =>
        have hmap := hsol rfl
        cases sol with
        | nil => simp at hmap
        | cons s0 stail =>
            simp only [List.head?_cons, Option.map_some'] at hmap
            have hy0 : s0.y = 0 := Option.some.inj hmap
            cases hj : argmaxPos ((s0 :: stail).map (fun t => t.y)) with
            | zero =>
                rw [hj] at hlast
                simp at hlast
            | succ j =>
                rw [hj] at hlast
                simp only [List.nil_append, List.take_succ_cons,
                  List.cons_append]
                exact ⟨s0, _, rfl, hy0⟩

theorem grow_noMass_ok (solver : ℚ → InitState → ℚ → List Sample)
    (jump : Sample → ℚ → Option InitState) (cutoff : ℚ) :
    ∀ (fuel : ℕ) (x0 : ℚ) (s : InitState) (acc : List Sample) (appl : ℕ)
      (L : ℚ) (res : IntResult),
      integrateGrow solver jump cutoff [] x0 s acc appl L fuel = .ok res →
      (∃ L2, finalizeCrossing acc (solver x0 s (x0 + clampLen cutoff x0 L2))
          = some res.samples)
        ∧ res.applied = appl ∧ res.ignoredWarning = false := by
  intro fuel
  induction fuel with
  | zero => intro x0 s acc appl L res h; exact absurd h (by simp [integrateGrow])
  | succ fuel ih =>
      intro x0 s acc appl L res h
      rw [integrateGrow] at h
      split at h
      · exact absurd h (by simp)
      · rename_i lastSol hlast
        split at h
        · split at h
          · exact absurd h (by simp)
          · rename_i out hout
            simp only [Except.ok.injEq] at h
            subst h
            exact ⟨⟨L, hout⟩, rfl, by simp⟩
        · split at h
          · exact absurd h (by simp)
          · exact ih x0 s acc appl _ res h

theorem grow_ok_last (solver : ℚ → InitState → ℚ → List Sample)
    (jump : Sample → ℚ → Option InitState) (cutoff : ℚ) :
    ∀ (fuel : ℕ) (ms : List (ℚ × ℚ)) (x0 : ℚ) (s : InitState)
      (acc : List Sample) (appl : ℕ) (L : ℚ) (res : IntResult),
      integrateGrow solver jump cutoff ms x0 s acc appl L fuel = .ok res →
      ∃ a, res.samples.getLast? = some a ∧ a.y = 0 := by
  intro fuel
  induction fuel with
  | zero => intro ms x0 s acc appl L res h; exact absurd h (by simp [integrateGrow])
  | succ fuel ih =>
      intro ms x0 s acc appl L res h
      cases ms with
      | nil =>
          rw [integrateGrow] at h
          split at h
          · exact absurd h (by simp)
          · rename_i lastSol hlast
            split at h
            · split at h
              · exact absurd h (by simp)
              · rename_i out hout
                simp only [Except.ok.injEq] at h
                subst h
                exact finalize_last _ _ _ hout
            · split at h
              · exact absurd h (by simp)
              · exact ih [] x0 s acc appl _ res h
      | cons m rest =>
          obtain ⟨pos, M⟩ := m
          rw [integrateGrow] at h
          split at h
          · exact absurd h (by simp)
          · rename_i lastSol hlast
            split at h
            · split at h
              · exact absurd h (by simp)
              · rename_i out hout
                simp only [Except.ok.injEq] at h
                subst h
                exact finalize_last _ _ _ hout
            · split at h
              · exact absurd h (by simp)
              · rename_i lastS hlastS
                split at h
                · exact absurd h (by simp)
                · rename_i s' hjump
                  exact ih rest lastS.x s' _ (appl + 1) _ res h

theorem grow_ok_head (solver : ℚ → InitState → ℚ → List Sample)
    (jump : Sample → ℚ → Option InitState) (cutoff : ℚ)
    (hsolver : ∀ x0 s x1,
      (solver x0 s x1).head? = some ⟨x0, s.y, s.n, s.yx, s.nx⟩) :
    ∀ (fuel : ℕ) (ms : List (ℚ × ℚ)) (x0 : ℚ) (s : InitState)
      (acc : List Sample) (appl : ℕ) (L : ℚ) (res : IntResult),
      ((acc = [] ∧ s.y = 0) ∨ ∃ hd t, acc = hd :: t ∧ hd.y = 0) →
      integrateGrow solver jump cutoff ms x0 s acc appl L fuel = .ok res →
      ∃ hd t, res.samples = hd :: t ∧ hd.y = 0 := by
  intro fuel
  induction fuel with
  | zero => intro ms x0 s acc appl L res _ h; exact absurd h (by simp [integrateGrow])
  | succ fuel ih =>
      intro ms x0 s acc appl L res hinv h
      cases ms with
      | nil =>
          rw [integrateGrow] at h
          split at h
          · exact absurd h (by simp)
          · rename_i lastSol hlast
            split at h
            · split at h
              · exact absurd h (by simp)
              · rename_i out hout
                simp only [Except.ok.injEq] at h
                subst h
                refine finalize_head _ _ _ ?_ ?_ hout
                · intro hd hhd
                  rcases hinv with ⟨rfl, _⟩ | ⟨hd', t', rfl, hy⟩
                  · simp at hhd
                  · simp only [List.head?_cons, Option.mem_def,
                      Option.some.injEq] at hhd
                    subst hhd; exact hy
                · intro haccnil
                  rcases hinv with ⟨_, hy0⟩ | ⟨hd', t', rfl, _⟩
                  · rw [hsolver]
                    simp [hy0]
                  · exact absurd haccnil (by simp)
            · split at h
              · exact absurd h (by simp)
              · exact ih [] x0 s acc appl _ res hinv h
      | cons m rest =>
          obtain ⟨pos, M⟩ := m
          rw [integrateGrow] at h
          split at h
          · exact absurd h (by simp)
          · rename_i lastSol hlast
            split at h
            · split at h
              · exact absurd h (by simp)
              · rename_i out hout
                simp only [Except.ok.injEq] at h
                subst h
                refine finalize_head _ _ _ ?_ ?_ hout
                · intro hd hhd
                  rcases hinv with ⟨rfl, _⟩ | ⟨hd', t', rfl, hy⟩
                  · simp at hhd
                  · simp only [List.head?_cons, Option.mem_def,
                      Option.some.injEq] at hhd
                    subst hhd; exact hy
                · intro haccnil
                  rcases hinv with ⟨_, hy0⟩ | ⟨hd', t', rfl, _⟩
                  · rw [hsolver]
                    simp [hy0]
                  · exact absurd haccnil (by simp)
            · split at h
              · exact absurd h (by simp)
              · rename_i lastS hlastS
                split at h
                · exact absurd h (by simp)
                · rename_i s' hjump
                  refine ih rest lastS.x s' _ (appl + 1) _ res ?_ h
                  right
                  rcases hinv with ⟨rfl, hy0⟩ | ⟨hd', t', rfl, hy⟩
                  · have hhead := hsolver x0 s (x0 + clampLen cutoff x0 L)
                    cases hsolcase : solver x0 s (x0 + clampLen cutoff x0 L) with
                    | nil => rw [hsolcase] at hhead; simp at hhead
                    | cons a tail =>
                        rw [hsolcase] at hhead
                        simp only [List.head?_cons, Option.some.injEq] at hhead
                        refine ⟨a, tail, by simp [hsolcase], ?_⟩
                        rw [hhead, hy0]
                  · exact ⟨hd', t' ++ solver x0 s (x0 + clampLen cutoff x0 L),
                      by simp, hy⟩

/-- Claim C1 (amended): static profiles report sag negative-downward: for
every no-load run of the embedded `integrate`, every sample satisfies
`y ≤ 0` (the stored sag is nonpositive, with negative meaning downward),
and the terminal anchor sample has `y = 0` exactly; so the claimed
nonnegative interior sag (and with it the window `y(12.5) ∈ [0.02, 0.08]`
for scenario S1) fails with the sign stored by the code. -/
theorem C1_sag_sign :
    ∀ (solver : ℚ → InitState → ℚ → List Sample)
      (jump : Sample → ℚ → Option InitState) (cutoff : ℚ) (s0 : InitState)
      (fuel : ℕ) (res : IntResult),
      integrateModel solver jump [] cutoff s0 fuel = .ok res →
      (∀ t ∈ res.samples, t.y ≤ 0) ∧
      (∃ a, res.samples.getLast? = some a ∧ a.y = 0) := by
  intro solver jump cutoff s0 fuel res h
  have h' : integrateGrow solver jump cutoff [] 0 s0 [] 0 1000 fuel
      = .ok res := h
  obtain ⟨⟨L2, hfin⟩, _, _⟩ :=
    grow_noMass_ok solver jump cutoff fuel 0 s0 [] 0 1000 res h'
  exact ⟨finalize_nonpos _ _ _ (by simp) hfin, finalize_last _ _ _ hfin⟩

/-- Witness for C1: the concrete no-load run through `cSolver` produces the
profile `cOut`, whose samples are all nonpositive with terminal zero. -/
theorem C1_sag_sign_witness :
    (∀ t ∈ cOut, t.y ≤ 0) ∧ (∃ a, cOut.getLast? = some a ∧ a.y = 0) := by
  have hrun : integrateModel cSolver noJump [] 10000 cInit 5
      = .ok ⟨cOut, 0, false⟩ := by
    norm_num [integrateModel, integrateGrow, removeAnchorMasses, cSolver,
      cInit, cOut, finalizeCrossing, argmaxPos, nextSegLen, List.findIdx,
      List.findIdx.go, List.getLast?, clampLen]
  exact C1_sag_sign cSolver noJump 10000 cInit 5 ⟨cOut, 0, false⟩ hrun

/-- Counterexample for C1 as stated: a concrete no-load run returns a
profile whose interior sag values are negative, not nonnegative. -/
theorem C1_counterexample :
    integrateModel cSolver noJump [] 10000 cInit 5 = .ok ⟨cOut, 0, false⟩
      ∧ ¬ (∀ t ∈ cOut, 0 ≤ t.y) := by
  constructor
  · norm_num [integrateModel, integrateGrow, removeAnchorMasses, cSolver,
      cInit, cOut, finalizeCrossing, argmaxPos, nextSegLen, List.findIdx,
      List.findIdx.go, List.getLast?, clampLen]
  · intro hall
    have := hall ⟨1, -(1 / 10), 1, -(1 / 20), 1⟩ (by simp [cOut])
    norm_num at this

theorem stages_pinned (p : DynParams) (c0 cN : ℝ) (base : DState) (h : ℝ)
    (hN : 0 < p.N) (hbase : PinnedEnds p c0 cN base) :
    ∀ ks, Stages p base h ks →
      ∀ k ∈ ks, k.1 0 = 0 ∧ k.1 (p.N - 1) = 0
        ∧ k.2 0 = 0 ∧ k.2 (p.N - 1) = 0 := by
  intro ks hks
  induction hks with
  | nil => simp
  | cons ks coeffs fext k hks heom ih =>
      have hst : ∀ j, j = 0 ∨ j = p.N - 1 →
          (combState base h (coeffs.zip ks)).2 j = 0 := by
        intro j hj
        have hsum : ((coeffs.zip ks).map (fun cd => cd.1 * cd.2.2 j)).sum
            = 0 := by
          apply List.sum_eq_zero
          intro x hx
          rcases List.mem_map.mp hx with ⟨cd, hcd, rfl⟩
          have hmem := List.of_mem_zip hcd
          rcases hj with rfl | rfl
          · rw [(ih cd.2 hmem.2).2.2.1, mul_zero]
          · rw [(ih cd.2 hmem.2).2.2.2, mul_zero]
        show base.2 j + h * _ = 0
        rcases hj with rfl | rfl
        · rw [hbase.2.2.1, hsum, mul_zero, add_zero]
        · rw [hbase.2.2.2, hsum, mul_zero, add_zero]
      intro k' hk'
      rcases List.mem_append.mp hk' with hk' | hk'
      · exact ih k' hk'
      · simp only [List.mem_singleton] at hk'
        subst hk'
        have h1 : k'.1 0 = 0 := by
          rw [heom.1 0]; exact hst 0 (Or.inl rfl)
        have h2 : k'.1 (p.N - 1) = 0 := by
          rw [heom.1 (p.N - 1)]; exact hst (p.N - 1) (Or.inr rfl)
        have h3 : k'.2 0 = 0 := by
          have := heom.2 0 hN
          simpa using this
        have h4 : k'.2 (p.N - 1) = 0 := by
          have := heom.2 (p.N - 1) (Nat.sub_lt hN Nat.one_pos)
          simpa using this
        exact ⟨h1, h2, h3, h4⟩

theorem rkstep_pinned (p : DynParams) (c0 cN : ℝ) (hN : 0 < p.N)
    (base next : DState) (hbase : PinnedEnds p c0 cN base)
    (hstep : IsRKStep p base next) : PinnedEnds p c0 cN next := by
  obtain ⟨h, ks, bs, hks, rfl⟩ := hstep
  have hall := stages_pinned p c0 cN base h hN hbase ks hks
  have hsum1 : ∀ j, j = 0 ∨ j = p.N - 1 →
      ((bs.zip ks).map (fun cd => cd.1 * cd.2.1 j)).sum = 0 := by
    intro j hj
    apply List.sum_eq_zero
    intro x hx
    rcases List.mem_map.mp hx with ⟨cd, hcd, rfl⟩
    have hmem := List.of_mem_zip hcd
    rcases hj with rfl | rfl
    · rw [(hall cd.2 hmem.2).1, mul_zero]
    · rw [(hall cd.2 hmem.2).2.1, mul_zero]
  have hsum2 : ∀ j, j = 0 ∨ j = p.N - 1 →
      ((bs.zip ks).map (fun cd => cd.1 * cd.2.2 j)).sum = 0 := by
    intro j hj
    apply List.sum_eq_zero
    intro x hx
    rcases List.mem_map.mp hx with ⟨cd, hcd, rfl⟩
    have hmem := List.of_mem_zip hcd
    rcases hj with rfl | rfl
    · rw [(hall cd.2 hmem.2).2.2.1, mul_zero]
    · rw [(hall cd.2 hmem.2).2.2.2, mul_zero]
  refine ⟨?_, ?_, ?_, ?_⟩
  · show base.1 0 + h * _ = c0
    rw [hsum1 0 (Or.inl rfl), hbase.1, mul_zero, add_zero]
  · show base.1 (p.N - 1) + h * _ = cN
    rw [hsum1 (p.N - 1) (Or.inr rfl), hbase.2.1, mul_zero, add_zero]
  · show base.2 0 + h * _ = 0
    rw [hsum2 0 (Or.inl rfl), hbase.2.2.1, mul_zero, add_zero]
  · show base.2 (p.N - 1) + h * _ = 0
    rw [hsum2 (p.N - 1) (Or.inr rfl), hbase.2.2.2, mul_zero, add_zero]

theorem chain_pinned (p : DynParams) (c0 cN : ℝ) (hN : 0 < p.N) :
    ∀ traj : List DState, List.Chain' (IsRKStep p) traj →
      (∀ hd ∈ traj.head?, PinnedEnds p c0 cN hd) →
      ∀ st ∈ traj, PinnedEnds p c0 cN st := by
  intro traj
  induction traj with
  | nil => simp
  | cons a t ih =>
      intro hchain hhead st hst
      have ha : PinnedEnds p c0 cN a := hhead a (by simp)
      rcases List.mem_cons.mp hst with rfl | hst'
      · exact ha
      · cases t with
        | nil => simp at hst'
        | cons b t' =>
            have hstep : IsRKStep p a b := (List.chain'_cons.mp hchain).1
            have hchain' := (List.chain'_cons.mp hchain).2
            have hb : PinnedEnds p c0 cN b :=
              rkstep_pinned p c0 cN hN a b ha hstep
            exact ih hchain' (by intro hd hhd; simp at hhd; exact hhd ▸ hb)
              st hst'

/-- Claim C2: anchor pinning.  Statically, every profile returned by the
embedded `integrate` (given that the sampling oracle emits its initial
state first, and the run starts from `y0 = 0` as in src/integrator.py line
49) has its first sample at `y = 0` and its appended terminal anchor sample
at `y = 0` exactly.  Dynamically, any trajectory of explicit Runge-Kutta
steps of the equations of motion whose initial state has the boundary
positions at their equilibrium values and boundary velocities zero keeps
the boundary values in every frame. -/
theorem C2_anchor_pinning :
    (∀ (solver : ℚ → InitState → ℚ → List Sample)
       (jump : Sample → ℚ → Option InitState) (masses : List (ℚ × ℚ))
       (cutoff : ℚ) (s0 : InitState) (fuel : ℕ) (res : IntResult),
       (∀ x0 s x1, (solver x0 s x1).head?
          = some ⟨x0, s.y, s.n, s.yx, s.nx⟩) →
       s0.y = 0 →
       integrateModel solver jump masses cutoff s0 fuel = .ok res →
       (∃ hd t, res.samples = hd :: t ∧ hd.y = 0) ∧
       (∃ a, res.samples.getLast? = some a ∧ a.y = 0))
    ∧ (∀ (p : DynParams) (c0 cN : ℝ) (traj : List DState), 0 < p.N →
        List.Chain' (IsRKStep p) traj →
        (∀ hd ∈ traj.head?, PinnedEnds p c0 cN hd) →
        ∀ st ∈ traj, PinnedEnds p c0 cN st) := by
  constructor
  · intro solver jump masses cutoff s0 fuel res hsolver hy0 h
    have h' : integrateGrow solver jump cutoff (removeAnchorMasses masses)
        0 s0 [] 0 (nextSegLen 0 (removeAnchorMasses masses)) fuel
        = .ok res := h
    constructor
    · exact grow_ok_head solver jump cutoff hsolver fuel _ 0 s0 [] 0 _ res
        (Or.inl ⟨rfl, hy0⟩) h'
    · exact grow_ok_last solver jump cutoff fuel _ 0 s0 [] 0 _ res h'
  · intro p c0 cN traj hN hchain hhead
    exact chain_pinned p c0 cN hN traj hchain hhead

/-- Witness for C2: the concrete static run through `cSolver` yields `cOut`
with zero first and last sag, and a concrete one-step Runge-Kutta
trajectory from the all-zero state keeps its boundary values. -/
theorem C2_anchor_pinning_witness :
    ((∃ hd t, cOut = hd :: t ∧ hd.y = 0)
      ∧ (∃ a, cOut.getLast? = some a ∧ a.y = 0))
    ∧ PinnedEnds pZero 0 0 (combState stZero 1 []) := by
  constructor
  · have hrun : integrateModel cSolver noJump [] 10000 cInit 5
        = .ok ⟨cOut, 0, false⟩ := by
      norm_num [integrateModel, integrateGrow, removeAnchorMasses, cSolver,
        cInit, cOut, finalizeCrossing, argmaxPos, nextSegLen, List.findIdx,
        List.findIdx.go, List.getLast?, clampLen]
    exact C2_anchor_pinning.1 cSolver noJump [] 10000 cInit 5 ⟨cOut, 0, false⟩
      (fun x0 s x1 => rfl) rfl hrun
  · have hchain : List.Chain' (IsRKStep pZero) [stZero, combState stZero 1 []] :=
      List.chain'_cons.mpr ⟨⟨1, [], [], Stages.nil, rfl⟩,
        List.chain'_singleton _⟩
    refine C2_anchor_pinning.2 pZero 0 0 [stZero, combState stZero 1 []]
      (by norm_num [pZero]) hchain ?_ (combState stZero 1 []) (by simp)
    intro hd hhd
    simp only [List.head?_cons, Option.mem_def, Option.some.injEq] at hhd
    subst hhd
    exact ⟨rfl, rfl, rfl, rfl⟩

theorem natBracket_succ (f : ℚ → ℚ) (t : ℚ) (ab : ℚ × ℚ) (j : ℕ) :
    natBracket f t ab (j + 1) = natBracket f t (natSearchStep f t ab) j :=
  Function.iterate_succ_apply _ _ _

theorem natSearchStep_gt (f : ℚ → ℚ) (t : ℚ) (ab : ℚ × ℚ)
    (h : t < f (midQ ab)) : natSearchStep f t ab = (midQ ab, ab.2) := by
  unfold natSearchStep
  rw [if_pos (show t < f ((ab.1 + ab.2) / 2) from h)]
  rfl

theorem natSearchStep_le (f : ℚ → ℚ) (t : ℚ) (ab : ℚ × ℚ)
    (h : ¬ t < f (midQ ab)) : natSearchStep f t ab = (ab.1, midQ ab) := by
  unfold natSearchStep
  rw [if_neg (show ¬ t < f ((ab.1 + ab.2) / 2) from h)]
  rfl

theorem natSearchGo_first_hit (f : ℚ → ℚ) (t : ℚ) :
    ∀ (fuel : ℕ) (a b T : ℚ), natSearchGo f t fuel a b = some T →
      ∃ k, k < fuel ∧ T = midQ (natBracket f t (a, b) k)
        ∧ natHit f t (natBracket f t (a, b) k)
        ∧ ∀ j, j < k → ¬ natHit f t (natBracket f t (a, b) j) := by
  intro fuel
  induction fuel with
  | zero => intro a b T h; simp [natSearchGo] at h
  | succ fuel ih =>
      intro a b T h
      rw [natSearchGo] at h
      by_cases h1 : |f ((a + b) / 2) - t| < 1 / 10
      · rw [if_pos h1] at h
        have hT : T = (a + b) / 2 := (Option.some.inj h).symm
        exact ⟨0, Nat.succ_pos _, by simpa [natBracket, midQ] using hT,
          by simpa [natHit, natBracket, midQ] using h1, by simp⟩
      · rw [if_neg h1] at h
        have hmid : midQ (a, b) = (a + b) / 2 := rfl
        by_cases h2 : t < f ((a + b) / 2)
        · rw [if_pos h2] at h
          obtain ⟨k, hk, hT, hhit, hmiss⟩ := ih ((a + b) / 2) b T h
          have hstep : natSearchStep f t (a, b) = ((a + b) / 2, b) :=
            natSearchStep_gt f t (a, b) (by rwa [hmid])
          refine ⟨k + 1, Nat.succ_lt_succ hk, ?_, ?_, ?_⟩
          · rwa [natBracket_succ, hstep]
          · rwa [natBracket_succ, hstep]
          · intro j hj
            cases j with
            | zero =>
                simpa [natHit, natBracket, midQ] using h1
            | succ j' =>
                rw [natBracket_succ, hstep]
                exact hmiss j' (Nat.lt_of_succ_lt_succ hj)
        · rw [if_neg h2] at h
          obtain ⟨k, hk, hT, hhit, hmiss⟩ := ih a ((a + b) / 2) T h
          have hstep : natSearchStep f t (a, b) = (a, (a + b) / 2) :=
            natSearchStep_le f t (a, b) (by rwa [hmid])
          refine ⟨k + 1, Nat.succ_lt_succ hk, ?_, ?_, ?_⟩
          · rwa [natBracket_succ, hstep]
          · rwa [natBracket_succ, hstep]
          · intro j hj
            cases j with
            | zero =>
                simpa [natHit, natBracket, midQ] using h1
            | succ j' =>
                rw [natBracket_succ, hstep]
                exact hmiss j' (Nat.lt_of_succ_lt_succ hj)

/-- Claim C4: `integrate_natural_length` bisects the anchor tension from the
bracket `[N_target * m * g, 50000]`; every returned tension is the midpoint
of the bracket reached by the stated update rule, its oracle value is
within 0.1 of the target, all earlier midpoints failed the tolerance test
(so the first passing trajectory is returned), and each bracket update
raises the lower bound when `n_final > N_target` and lowers the upper bound
otherwise. -/
theorem C4_natural_length_search :
    (∀ (f : ℚ → ℚ) (m g naturalLength : ℚ) (fuel : ℕ) (T : ℚ),
       integrateNaturalLength f m g naturalLength fuel = some T →
       ∃ k, k < fuel ∧
         T = midQ (natBracket f naturalLength
            (naturalLength * m * g, 50000) k) ∧
         |f T - naturalLength| < 1 / 10 ∧
         ∀ j, j < k → ¬ natHit f naturalLength
            (natBracket f naturalLength (naturalLength * m * g, 50000) j))
    ∧ (∀ (f : ℚ → ℚ) (t : ℚ) (ab : ℚ × ℚ),
        (t < f (midQ ab) → natSearchStep f t ab = (midQ ab, ab.2)) ∧
        (¬ t < f (midQ ab) → natSearchStep f t ab = (ab.1, midQ ab))) := by
  constructor
  · intro f m g naturalLength fuel T h
    obtain ⟨k, hk, hT, hhit, hmiss⟩ :=
      natSearchGo_first_hit f naturalLength fuel (naturalLength * m * g)
        50000 T h
    refine ⟨k, hk, hT, ?_, hmiss⟩
    rw [hT]
    exact hhit
  · intro f t ab
    exact ⟨natSearchStep_gt f t ab, natSearchStep_le f t ab⟩

/-- Witness for C4: with a constant oracle equal to the target, the search
returns the first midpoint `(100 * 1 * 1 + 50000) / 2 = 25050` at once. -/
theorem C4_natural_length_search_witness :
    integrateNaturalLength (fun _ => 100) 1 1 100 1 = some 25050 ∧
    ∃ k, k < 1 ∧
      (25050 : ℚ) = midQ (natBracket (fun _ => 100) 100 (100 * 1 * 1, 50000) k) ∧
      |(fun _ => (100 : ℚ)) 25050 - 100| < 1 / 10 ∧
      ∀ j, j < k → ¬ natHit (fun _ => (100 : ℚ)) 100
        (natBracket (fun _ => 100) 100 (100 * 1 * 1, 50000) j) := by
  have h : integrateNaturalLength (fun _ => 100) 1 1 100 1 = some 25050 := by
    norm_num [integrateNaturalLength, natSearchGo]
  exact ⟨h, C4_natural_length_search.1 (fun _ => 100) 1 1 100 1 25050 h⟩

theorem natSearchGo_const_zero :
    ∀ (fuel : ℕ) (a b : ℚ), natSearchGo (fun _ => 0) 1 fuel a b = none := by
  intro fuel
  induction fuel with
  | zero => intro a b; rfl
  | succ fuel ih =>
      intro a b
      rw [natSearchGo, if_neg (by norm_num), if_neg (by norm_num)]
      exact ih a ((a + b) / 2)

theorem lengthTensionGo_const_err :
    ∀ (fuel : ℕ) (a b : ℚ),
      lengthTensionGo (fun _ => .error ()) 25 fuel a b = none := by
  intro fuel
  induction fuel with
  | zero => intro a b; rfl
  | succ fuel ih =>
      intro a b
      rw [lengthTensionGo]
      exact ih a ((a + b) / 2)

theorem lengthTensionGo_some_sound (orc : ℚ → Except Unit ℚ) (L : ℚ) :
    ∀ (fuel : ℕ) (a b θ : ℚ), lengthTensionGo orc L fuel a b = some θ →
      ∃ xf, orc θ = .ok xf ∧ |xf - L| < 1 / 10 := by
  intro fuel
  induction fuel with
  | zero => intro a b θ h; simp [lengthTensionGo] at h
  | succ fuel ih =>
      intro a b θ h
      rw [lengthTensionGo] at h
      split at h
      · exact ih _ _ _ h
      · rename_i xf horc
        by_cases h1 : |xf - L| < 1 / 10
        · rw [if_pos h1] at h
          have hθ : θ = (a + b) / 2 := (Option.some.inj h).symm
          exact ⟨xf, hθ ▸ horc, h1⟩
        · rw [if_neg h1] at h
          by_cases h2 : L < xf
          · rw [if_pos h2] at h; exact ih _ _ _ h
          · rw [if_neg h2] at h; exact ih _ _ _ h

/-- Claim C7 (amended): the two binary searches have no iteration budget and
no `SearchUnconverged` failure exists.  When a search returns, the returned
value satisfies the 0.1 tolerance test (so the loop runs until tolerance is
met); and there are concrete oracles (an inner solve whose final natural
length stays at 0, or an inner integrate that always raises
`SlacklineTooLong`) for which the loop never returns, at any iteration
count. -/
theorem C7_search_budget :
    (∀ (orc : ℚ → Except Unit ℚ) (L : ℚ) (fuel : ℕ) (a b θ : ℚ),
       lengthTensionGo orc L fuel a b = some θ →
       ∃ xf, orc θ = .ok xf ∧ |xf - L| < 1 / 10)
    ∧ (∀ (f : ℚ → ℚ) (t : ℚ) (fuel : ℕ) (a b T : ℚ),
        natSearchGo f t fuel a b = some T → |f T - t| < 1 / 10)
    ∧ (∀ fuel : ℕ, natSearchGo (fun _ => 0) 1 fuel 100 50000 = none)
    ∧ (∀ fuel : ℕ,
        lengthTensionGo (fun _ => .error ()) 25 fuel (1 / 1000) (785 / 1000)
          = none) := by
  refine ⟨lengthTensionGo_some_sound, ?_, fun fuel =>
    natSearchGo_const_zero fuel 100 50000, fun fuel =>
    lengthTensionGo_const_err fuel (1 / 1000) (785 / 1000)⟩
  intro f t fuel a b T h
  obtain ⟨k, _, hT, hhit, _⟩ := natSearchGo_first_hit f t fuel a b T h
  rw [hT]
  exact hhit

/-- Witness for C7: a terminating run meets the tolerance, and the constant
oracle run returns nothing after five iterations. -/
theorem C7_search_budget_witness :
    |(fun _ => (100 : ℚ)) 25050 - 100| < 1 / 10 ∧
    natSearchGo (fun _ => 0) 1 5 100 50000 = none := by
  constructor
  · exact C7_search_budget.2.1 (fun _ => 100) 100 1 100 50000 25050
      (by norm_num [natSearchGo])
  · exact C7_search_budget.2.2.1 5

/-- Counterexample for C7 as stated: neither search terminates on every
input; on the constant oracles above no iteration count ever returns, so
there is no finite iteration budget and no `SearchUnconverged` error. -/
theorem C7_counterexample :
    ¬ NatSearchTerminates (fun _ => 0) 1 100 50000 ∧
    ¬ LTSearchTerminates (fun _ => .error ()) 25 (1 / 1000) (785 / 1000) := by
  constructor
  · rintro ⟨fuel, hsome⟩
    rw [natSearchGo_const_zero fuel 100 50000] at hsome
    simp at hsome
  · rintro ⟨fuel, hsome⟩
    rw [lengthTensionGo_const_err fuel (1 / 1000) (785 / 1000)] at hsome
    simp at hsome

theorem decodeNums_map (l : List ℚ) : decodeNums (.arr (l.map .num)) = some l := by
  induction l with
  | nil => rfl
  | cons a t ih =>
      simp only [decodeNums, List.map_cons, List.mapM_cons] at ih ⊢
      rw [ih]
      rfl

theorem decodeLoads_map (loads : List (ℚ × ℚ)) :
    (loads.map (fun p => JVal.arr [.num p.1, .num p.2])).mapM decodeLoad
      = some loads := by
  induction loads with
  | nil => rfl
  | cons p rest ih =>
      simp only [List.map_cons, List.mapM_cons, ih]
      rw [show decodeLoad (.arr [.num p.1, .num p.2]) = some (p.1, p.2)
        from rfl]
      simp

theorem addAll_ok : ∀ (pairs : List (ℚ × ℚ)) (c : Constraints),
    (∀ p ∈ pairs, 0 ≤ p.1 ∧ p.1 ≤ c.gap_length ∧ 0 < p.2) →
    addAll c pairs = .ok { c with slackliners := c.slackliners ++ pairs } := by
  intro pairs
  induction pairs with
  | nil => intro c _; simp [addAll]
  | cons p rest ih =>
      intro c hval
      obtain ⟨pos, m⟩ := p
      have hp := hval (pos, m) (by simp)
      have hadd : addSlackliner c pos m
          = .ok { c with slackliners := c.slackliners ++ [(pos, m)] } := by
        unfold addSlackliner
        rw [if_neg (by push_neg; exact ⟨hp.1, hp.2.1⟩),
          if_neg (by push_neg; exact hp.2.2)]
      rw [addAll, hadd]
      show addAll { c with slackliners := c.slackliners ++ [(pos, m)] } rest = _
      have hih := ih { c with slackliners := c.slackliners ++ [(pos, m)] }
        (fun q hq => hval q (by simp [hq]))
      rw [hih]
      simp

/-- Claim C5 (amended): serialization round-trips at the level of the parsed
JSON value: `Rig.from_json` inverts `Rig.to_json` field-by-field, and
`Constraints.from_json` inverts `Constraints.to_json` whenever every stored
load passes `add_slackliner` validation; but the Constraints schema uses
the keys `slackline` (with `name`, `m`, `g`, `K`), `gap_length`,
`anchor_tension` and `slackliners` — not `material` and `loads`. -/
theorem C5_serialization :
    (∀ r : Rig, rigFromJson (rigToJson r) = some r)
    ∧ (∀ c : Constraints,
        (∀ p ∈ c.slackliners, 0 ≤ p.1 ∧ p.1 ≤ c.gap_length ∧ 0 < p.2) →
        constraintsFromJson (constraintsToJson c) = .ok c)
    ∧ (∀ c : Constraints, (constraintsToJson c).keysOf
        = ["slackline", "gap_length", "anchor_tension", "slackliners"]) := by
  refine ⟨?_, ?_, fun c => rfl⟩
  · intro r
    have hx : getNums (rigToJson r) "x" = some r.x := decodeNums_map r.x
    have hn : getNums (rigToJson r) "n" = some r.n := decodeNums_map r.n
    have hl : getNums (rigToJson r) "l" = some r.l := decodeNums_map r.l
    have hy : getNums (rigToJson r) "y" = some r.y := decodeNums_map r.y
    have hT : getNums (rigToJson r) "T" = some r.T := decodeNums_map r.T
    have hA : getNums (rigToJson r) "A" = some r.A := decodeNums_map r.A
    rw [rigFromJson, hx, hn, hl, hy, hT, hA]
  · intro c hval
    have hsl : getWebbing (constraintsToJson c) = some c.slackline := rfl
    have hload : getLoadsArr (constraintsToJson c) = some c.slackliners :=
      decodeLoads_map c.slackliners
    have hgap : (constraintsToJson c).getKey "gap_length"
        = some (.num c.gap_length) := rfl
    have hten : (constraintsToJson c).getKey "anchor_tension"
        = some (.num c.anchor_tension) := rfl
    rw [constraintsFromJson, hsl, hgap, hten, hload]
    show (match addAll ⟨c.slackline, c.gap_length, c.anchor_tension, []⟩
        c.slackliners with
      | .error e => Except.error (FromJsonErr.api e)
      | .ok c' => Except.ok c') = Except.ok c
    rw [addAll_ok c.slackliners ⟨c.slackline, c.gap_length,
      c.anchor_tension, []⟩ (fun p hp => hval p hp)]
    rfl

/-- Witness for C5: the round trips at the concrete rig `wRig` and the
concrete constraints `wConstraints` (whose single load is valid). -/
theorem C5_serialization_witness :
    rigFromJson (rigToJson wRig) = some wRig
    ∧ constraintsFromJson (constraintsToJson wConstraints)
      = .ok wConstraints := by
  constructor
  · exact C5_serialization.1 wRig
  · exact C5_serialization.2.1 wConstraints
      (by intro p hp; simp [wConstraints] at hp; rw [hp]
          norm_num [wConstraints])

/-- Counterexample for C5 as stated: the Constraints JSON value has no
`material` and no `loads` key; its keys are `slackline`, `gap_length`,
`anchor_tension`, `slackliners`. -/
theorem C5_counterexample :
    (constraintsToJson wConstraints).keysOf
      = ["slackline", "gap_length", "anchor_tension", "slackliners"]
    ∧ (constraintsToJson wConstraints).getKey "material" = none
    ∧ (constraintsToJson wConstraints).getKey "loads" = none := by
  refine ⟨rfl, ?_, ?_⟩ <;>
    simp [constraintsToJson, JVal.getKey, List.lookup]

/-- Claim C6 (amended): `add_slackliner` rejects positions outside
`[0, gap_length]` and then nonpositive masses, and accepts a load at
exactly 0 or exactly `gap_length`; before integration only loads with
nonpositive positions are dropped (with the diagnostic printed exactly for
`x = 0`), so a load at `x = gap_length` is NOT filtered out and is passed
to the segment integrator. -/
theorem C6_load_validation :
    (∀ (c : Constraints) (pos mass : ℚ),
       (addSlackliner c pos mass = .error .invalidPosition
          ↔ (pos < 0 ∨ c.gap_length < pos)) ∧
       (addSlackliner c pos mass = .error .invalidMass
          ↔ (0 ≤ pos ∧ pos ≤ c.gap_length ∧ mass ≤ 0)) ∧
       (addSlackliner c pos mass
          = .ok { c with slackliners := c.slackliners ++ [(pos, mass)] }
          ↔ (0 ≤ pos ∧ pos ≤ c.gap_length ∧ 0 < mass)))
    ∧ (∀ (masses : List (ℚ × ℚ)) (p : ℚ × ℚ),
        p ∈ removeAnchorMasses masses ↔ p ∈ masses ∧ 0 < p.1)
    ∧ (∀ (masses : List (ℚ × ℚ)) (m : ℚ),
        (0, m) ∉ removeAnchorMasses masses)
    ∧ (∀ (gapLength m : ℚ) (masses : List (ℚ × ℚ)), 0 < gapLength →
        (gapLength, m) ∈ masses →
        (gapLength, m) ∈ removeAnchorMasses masses)
    ∧ (∀ (masses : List (ℚ × ℚ)) (p : ℚ × ℚ),
        p ∈ anchorWarnings masses ↔ p ∈ masses ∧ p.1 = 0) := by
  refine ⟨?_, ?_, ?_, ?_, ?_⟩
  · intro c pos mass
    unfold addSlackliner
    by_cases hpos : pos < 0 ∨ c.gap_length < pos
    · rw [if_pos hpos]
      refine ⟨⟨fun _ => hpos, fun _ => rfl⟩, ⟨fun h => absurd h (by simp),
        fun h => ?_⟩, ⟨fun h => absurd h (by simp), fun h => ?_⟩⟩
      · exact absurd hpos (by push_neg; exact ⟨h.1, h.2.1⟩)
      · exact absurd hpos (by push_neg; exact ⟨h.1, h.2.1⟩)
    · rw [if_neg hpos]
      push_neg at hpos
      by_cases hm : mass ≤ 0
      · rw [if_pos hm]
        refine ⟨⟨fun h => absurd h (by simp), fun h => ?_⟩,
          ⟨fun _ => ⟨hpos.1, hpos.2, hm⟩, fun _ => rfl⟩,
          ⟨fun h => absurd h (by simp), fun h => absurd hm (by linarith [h.2.2])⟩⟩
        rcases h with h | h
        · exact absurd h (by linarith [hpos.1])
        · exact absurd h (by linarith [hpos.2])
      · rw [if_neg hm]
        push_neg at hm
        refine ⟨⟨fun h => absurd h (by simp), fun h => ?_⟩,
          ⟨fun h => absurd h (by simp), fun h => absurd hm (by linarith [h.2.2])⟩,
          ⟨fun _ => ⟨hpos.1, hpos.2, hm⟩, fun _ => rfl⟩⟩
        rcases h with h | h
        · exact absurd h (by linarith [hpos.1])
        · exact absurd h (by linarith [hpos.2])
  · intro masses p
    simp [removeAnchorMasses, List.mem_filter]
  · intro masses m
    simp [removeAnchorMasses, List.mem_filter]
  · intro gapLength m masses hgap hmem
    simp [removeAnchorMasses, List.mem_filter]
    exact ⟨hmem, hgap⟩
  · intro masses p
    simp [anchorWarnings, List.mem_filter]

/-- Witness for C6: concrete validation outcomes, and the concrete filter
run that keeps the load at `x = gap_length = 25` while dropping the load at
`x = 0`. -/
theorem C6_load_validation_witness :
    addSlackliner wConstraints 0 50
      = .ok { wConstraints with
          slackliners := wConstraints.slackliners ++ [(0, 50)] }
    ∧ addSlackliner wConstraints 10 0 = .error .invalidMass
    ∧ addSlackliner wConstraints 26 50 = .error .invalidPosition
    ∧ (25, 80) ∈ removeAnchorMasses [(0, 70), (25, 80)]
    ∧ (0, 70) ∉ removeAnchorMasses [(0, 70), (25, 80)] := by
  refine ⟨?_, ?_, ?_, ?_, ?_⟩
  · exact (C6_load_validation.1 wConstraints 0 50).2.2.mpr
      (by norm_num [wConstraints])
  · exact (C6_load_validation.1 wConstraints 10 0).2.1.mpr
      (by norm_num [wConstraints])
  · exact (C6_load_validation.1 wConstraints 26 50).1.mpr
      (by norm_num [wConstraints])
  · exact C6_load_validation.2.2.2.1 25 80 [(0, 70), (25, 80)]
      (by norm_num) (by simp)
  · exact C6_load_validation.2.2.1 [(0, 70), (25, 80)] 70

/-- Counterexample for C6 as stated: a load at exactly `x = gap_length` is
accepted by `add_slackliner` but is not filtered out before integration:
the mass-removal step keeps it. -/
theorem C6_counterexample :
    addSlackliner ⟨dyneemitePro, 25, 2000, []⟩ 25 80
      = .ok ⟨dyneemitePro, 25, 2000, [(25, 80)]⟩
    ∧ removeAnchorMasses [(25, 80)] = [(25, 80)] := by
  constructor
  · unfold addSlackliner
    rw [if_neg (by norm_num), if_neg (by norm_num)]
    rfl
  · rfl

theorem div_sqrt_one_add_sq_inj (a a' : ℝ)
    (h : a / Real.sqrt (1 + a ^ 2) = a' / Real.sqrt (1 + a' ^ 2)) :
    a = a' := by
  have h1 : (0:ℝ) < 1 + a ^ 2 := by positivity
  have h1' : (0:ℝ) < 1 + a' ^ 2 := by positivity
  have hs : 0 < Real.sqrt (1 + a ^ 2) := Real.sqrt_pos.mpr h1
  have hs' : 0 < Real.sqrt (1 + a' ^ 2) := Real.sqrt_pos.mpr h1'
  have hcross : a * Real.sqrt (1 + a' ^ 2) = a' * Real.sqrt (1 + a ^ 2) := by
    field_simp at h
    linarith [h]
  have hsq : a ^ 2 * (1 + a' ^ 2) = a' ^ 2 * (1 + a ^ 2) := by
    have h2 := congrArg (fun x => x ^ 2) hcross
    simp only [mul_pow] at h2
    rw [Real.sq_sqrt h1.le, Real.sq_sqrt h1'.le] at h2
    exact h2
  have ha2 : a ^ 2 = a' ^ 2 := by nlinarith [hsq]
  have hseq : Real.sqrt (1 + a ^ 2) = Real.sqrt (1 + a' ^ 2) := by
    rw [show (1:ℝ) + a ^ 2 = 1 + a' ^ 2 by linarith]
  have hz : (a - a') * Real.sqrt (1 + a' ^ 2) = 0 := by
    rw [hseq] at hcross
    ring_nf
    ring_nf at hcross
    linarith
  rcases mul_eq_zero.mp hz with h0 | h0
  · linarith
  · exact absurd h0 (ne_of_gt hs')

theorem jump_root_key (m g yv K M aL bL a b : ℝ) (hK : 0 < K) (hbL : 0 < bL)
    (hb : 0 < b) (he1 : JumpEq1 K g M aL bL a b)
    (he2 : JumpEq2 m g yv K aL bL a b) :
    b = Real.sqrt (1 + a ^ 2) * bL / Real.sqrt (1 + aL ^ 2) ∧
    (a / Real.sqrt (1 + a ^ 2)) * (K * (Real.sqrt (1 + aL ^ 2) / bL - 1))
      = M * g + K * aL / bL - K * aL / Real.sqrt (1 + aL ^ 2) := by
  unfold JumpEq1 at he1
  unfold JumpEq2 at he2
  have hb0 : b ≠ 0 := ne_of_gt hb
  have hbL0 : bL ≠ 0 := ne_of_gt hbL
  have hK0 : K ≠ 0 := ne_of_gt hK
  have h1 : (0:ℝ) < 1 + a ^ 2 := by positivity
  have h1L : (0:ℝ) < 1 + aL ^ 2 := by positivity
  have hs : 0 < Real.sqrt (1 + a ^ 2) := Real.sqrt_pos.mpr h1
  have hsL : 0 < Real.sqrt (1 + aL ^ 2) := Real.sqrt_pos.mpr h1L
  have hs0 : Real.sqrt (1 + a ^ 2) ≠ 0 := ne_of_gt hs
  have hsL0 : Real.sqrt (1 + aL ^ 2) ≠ 0 := ne_of_gt hsL
  have hcr : (1 + a ^ 2) * bL ^ 2 = (1 + aL ^ 2) * b ^ 2 := by
    field_simp at he2
    nlinarith [he2]
  have hbval : b = Real.sqrt (1 + a ^ 2) * bL / Real.sqrt (1 + aL ^ 2) := by
    have hrpos : 0 < Real.sqrt (1 + a ^ 2) * bL / Real.sqrt (1 + aL ^ 2) := by
      positivity
    have hsq' : b ^ 2
        = (Real.sqrt (1 + a ^ 2) * bL / Real.sqrt (1 + aL ^ 2)) ^ 2 := by
      rw [div_pow, mul_pow, Real.sq_sqrt h1.le, Real.sq_sqrt h1L.le]
      field_simp
      nlinarith [hcr]
    calc b = Real.sqrt (b ^ 2) := (Real.sqrt_sq hb.le).symm
    _ = Real.sqrt ((Real.sqrt (1 + a ^ 2) * bL / Real.sqrt (1 + aL ^ 2)) ^ 2) := by
        rw [hsq']
    _ = Real.sqrt (1 + a ^ 2) * bL / Real.sqrt (1 + aL ^ 2) :=
        Real.sqrt_sq hrpos.le
  refine ⟨hbval, ?_⟩
  rw [hbval] at he1
  field_simp at he1 ⊢
  nlinarith [he1]

theorem qualifies_unique (m g yv K M aL bL : ℝ) (hK : 0 < K) (hbL : 0 < bL)
    (hne : bL ≠ Real.sqrt (1 + aL ^ 2)) :
    ∀ r r' : ℝ × ℝ, Qualifies m g yv K M aL bL r →
      Qualifies m g yv K M aL bL r' → r = r' := by
  rintro ⟨a, b⟩ ⟨a', b'⟩ ⟨he1, he2, hb⟩ ⟨he1', he2', hb'⟩
  obtain ⟨hbv, hkey⟩ := jump_root_key m g yv K M aL bL a b hK hbL hb he1 he2
  obtain ⟨hbv', hkey'⟩ :=
    jump_root_key m g yv K M aL bL a' b' hK hbL hb' he1' he2'
  have hD : K * (Real.sqrt (1 + aL ^ 2) / bL - 1) ≠ 0 := by
    refine mul_ne_zero (ne_of_gt hK) (sub_ne_zero.mpr ?_)
    intro hc
    have hsLbL : Real.sqrt (1 + aL ^ 2) = bL := by
      field_simp at hc
      linarith
    exact hne hsLbL.symm
  have heq : a / Real.sqrt (1 + a ^ 2) = a' / Real.sqrt (1 + a' ^ 2) :=
    mul_right_cancel₀ hD (hkey.trans hkey'.symm)
  have ha : a = a' := div_sqrt_one_add_sq_inj a a' heq
  have hbeq : b = b' := by rw [hbv, hbv', ha]
  exact Prod.ext ha hbeq

theorem firstQualifying_some_q (Q : ℝ × ℝ → Prop) :
    ∀ (cands : List (ℝ × ℝ)) (res : Option (ℝ × ℝ)),
      FirstQualifying Q cands res → ∀ r, res = some r → Q r := by
  intro cands res hfq
  induction hfq with
  | nil => intro r hr; simp at hr
  | found r rest hq => intro r' hr'; cases hr'; exact hq
  | skip r rest res hnq _ ih => exact ih

theorem firstQualifying_none_no (Q : ℝ × ℝ → Prop) :
    ∀ (cands : List (ℝ × ℝ)) (res : Option (ℝ × ℝ)),
      FirstQualifying Q cands res → res = none →
      ∀ r ∈ cands, ¬ Q r := by
  intro cands res hfq
  induction hfq with
  | nil => intro _ r hr; simp at hr
  | found r rest hq => intro hr; simp at hr
  | skip r rest res hnq _ ih =>
      intro hnone r' hr'
      rcases List.mem_cons.mp hr' with rfl | hr'
      · exact hnq
      · exact ih hnone r' hr'

/-- Claim C3: at a point load of the ideal Lagrangian, with positive elastic
constant, positive left natural-length slope and nonzero tension at the
load (`b_L` differs from `sqrt(1 + a_L^2)`), the root loop of
`mass_boundary_conditions` returns a root of the 2x2 jump system with
`b_R > 0`; such a qualifying root is unique, so the returned root is in
particular the one nearest `(a_L, b_L)` in Euclidean distance among all
qualifying roots; and when no candidate qualifies the operation fails
(the raised exception, modelled as `none`). -/
theorem C3_jump_selection :
    ∀ (m g yv K M aL bL : ℝ), 0 < K → 0 < bL →
      bL ≠ Real.sqrt (1 + aL ^ 2) →
      ∀ (cands : List (ℝ × ℝ)) (res : Option (ℝ × ℝ)),
        FirstQualifying (Qualifies m g yv K M aL bL) cands res →
        (∀ r, res = some r → Qualifies m g yv K M aL bL r ∧
          ∀ r', Qualifies m g yv K M aL bL r' →
            Real.sqrt ((r.1 - aL) ^ 2 + (r.2 - bL) ^ 2)
              ≤ Real.sqrt ((r'.1 - aL) ^ 2 + (r'.2 - bL) ^ 2)) ∧
        (res = none → ∀ r ∈ cands, ¬ Qualifies m g yv K M aL bL r) := by
  intro m g yv K M aL bL hK hbL hne cands res hfq
  constructor
  · intro r hres
    have hq : Qualifies m g yv K M aL bL r :=
      firstQualifying_some_q _ cands res hfq r hres
    refine ⟨hq, ?_⟩
    intro r' hq'
    rw [qualifies_unique m g yv K M aL bL hK hbL hne r r' hq hq']
  · exact firstQualifying_none_no _ cands res hfq

/-- Witness for C3: a concrete jump with `K = 5`, `M*g = 3`, `a_L = 0`,
`b_L = 1/2` has the qualifying root `(3/4, 5/8)`, and it is nearest among
qualifying roots. -/
theorem C3_jump_selection_witness :
    Qualifies 1 1 2 5 3 0 (1 / 2) (3 / 4, 5 / 8) ∧
    ∀ r', Qualifies 1 1 2 5 3 0 (1 / 2) r' →
      Real.sqrt (((3 : ℝ) / 4 - 0) ^ 2 + ((5 : ℝ) / 8 - 1 / 2) ^ 2)
        ≤ Real.sqrt ((r'.1 - 0) ^ 2 + (r'.2 - 1 / 2) ^ 2) := by
  have hsq34 : Real.sqrt (1 + ((3 : ℝ) / 4) ^ 2) = 5 / 4 := by
    rw [show (1 + ((3 : ℝ) / 4) ^ 2) = (5 / 4) ^ 2 by norm_num,
      Real.sqrt_sq (by norm_num)]
  have hsq0 : Real.sqrt (1 + (0 : ℝ) ^ 2) = 1 := by
    rw [show (1 + (0 : ℝ) ^ 2) = 1 by norm_num, Real.sqrt_one]
  have hne : (1 / 2 : ℝ) ≠ Real.sqrt (1 + (0 : ℝ) ^ 2) := by
    rw [hsq0]; norm_num
  have hq : Qualifies 1 1 2 5 3 0 (1 / 2) (3 / 4, 5 / 8) := by
    refine ⟨?_, ?_, by norm_num⟩
    · unfold JumpEq1
      rw [hsq34, hsq0]
      norm_num
    · unfold JumpEq2
      norm_num
  have hfq : FirstQualifying (Qualifies 1 1 2 5 3 0 (1 / 2))
      [(3 / 4, 5 / 8)] (some (3 / 4, 5 / 8)) :=
    FirstQualifying.found _ _ hq
  have hmain := (C3_jump_selection 1 1 2 5 3 0 (1 / 2) (by norm_num)
    (by norm_num) hne [(3 / 4, 5 / 8)] (some (3 / 4, 5 / 8)) hfq).1
    (3 / 4, 5 / 8) rfl
  exact hmain

/-- Claim C8 (amended): the lumped node masses of the dynamics discretizer
are `rho * sqrt(1 + gradient(y_eq)^2) * dx` with the `np.gradient` finite
differences (central inside, one-sided at the edges) — not half-arclength
sums of the adjacent segments — and every node, including the two boundary
nodes, has strictly positive mass; the boundary nodes are pinned instead by
the equations of motion overwriting their accelerations with zero. -/
theorem C8_node_mass :
    ∀ (N : ℕ) (rho dx : ℝ) (y mass : ℕ → ℝ), 0 < rho → 0 < dx →
      IsSegMassArr N rho dx y mass →
      (∀ i, i < N → 0 < mass i)
      ∧ (∀ (p : DynParams) (fext : ℕ → ℝ) (yv vv dy dv : ℕ → ℝ), 0 < p.N →
          IsEomDeriv p fext yv vv dy dv → dv 0 = 0 ∧ dv (p.N - 1) = 0) := by
  rintro N rho dx y mass hrho hdx ⟨gr, hgr, hmass⟩
  constructor
  · intro i hi
    rw [hmass i hi]
    have hs : 0 < Real.sqrt (1 + gr i ^ 2) :=
      Real.sqrt_pos.mpr (by positivity)
    positivity
  · intro p fext yv vv dy dv hN heom
    constructor
    · have h := heom.2 0 hN
      simpa using h
    · have h := heom.2 (p.N - 1) (Nat.sub_lt hN Nat.one_pos)
      simpa using h

/-- Witness for C8: the flat three-node discretization with unit density and
spacing has all node masses `sqrt(1) = 1 > 0`, and on concrete dynamics
parameters the equations of motion zero both boundary accelerations. -/
theorem C8_node_mass_witness :
    (∀ i, i < 3 → 0 < (fun _ : ℕ => (1 : ℝ)) i)
    ∧ ((fun _ : ℕ => (0 : ℝ)) 0 = 0
        ∧ (fun _ : ℕ => (0 : ℝ)) (pZero.N - 1) = 0) := by
  have hinst : IsSegMassArr 3 1 1 (fun _ => 0) (fun _ : ℕ => (1 : ℝ)) := by
    refine ⟨fun _ => 0, ⟨by norm_num, by norm_num, fun i _ _ => by norm_num⟩,
      fun i _ => by norm_num [Real.sqrt_one]⟩
  have h := C8_node_mass 3 1 1 (fun _ => 0) (fun _ : ℕ => (1 : ℝ))
    (by norm_num) (by norm_num) hinst
  refine ⟨h.1, ?_⟩
  refine h.2 pZero (fun _ => 0) (fun _ => 0) (fun _ => 0) (fun _ => 0)
    (fun _ => 0) (by norm_num [pZero]) ⟨fun i => rfl, ?_⟩
  intro i hi
  have hi2 : i < 2 := hi
  interval_cases i
  · simp
  · simp [pZero]

/-- Counterexample for C8 as stated: on the three-node tent configuration
`y = (0, -1, 0)` with unit density and spacing, the code's node masses are
`(sqrt 2, 1, sqrt 2)`, which violate both parts of the claim: the boundary
nodes are not massless, and the interior node mass `1` differs from the
half-arclength sum `sqrt 2`. -/
theorem C8_counterexample :
    IsSegMassArr 3 1 1 (fun i => if i = 1 then (-1 : ℝ) else 0)
      (fun i => if i = 1 then (1 : ℝ) else Real.sqrt 2)
    ∧ ¬ IsSpecNodeMass 3 1 1 (fun i => if i = 1 then (-1 : ℝ) else 0)
      (fun i => if i = 1 then (1 : ℝ) else Real.sqrt 2) := by
  constructor
  · refine ⟨fun i => if i = 0 then (-1 : ℝ) else if i = 2 then 1 else 0,
      ⟨?_, ?_, ?_⟩, ?_⟩
    · norm_num
    · norm_num
    · intro i h1 h2
      have : i = 1 := by omega
      subst this
      norm_num
    · intro i hi
      interval_cases i
      · norm_num
      · norm_num [Real.sqrt_one]
      · norm_num
  · rintro ⟨h0, _, _⟩
    simp at h0

/-- Claim C10: when the segment integrated toward a pending load ends at or
above anchor height (`sol.y[0][-1] >= 0`), `integrate` finalizes and
returns a normal profile immediately: the result is `ok`, the remaining
loads' jump conditions are never applied (the result does not depend on the
jump oracle and the applied count is unchanged), and the
"masses were ignored" warning is printed.  No error is raised for such
loads. -/
theorem C10_beyond_anchor :
    ∀ (solver : ℚ → InitState → ℚ → List Sample) (cutoff : ℚ)
      (ms : List (ℚ × ℚ)) (x0 : ℚ) (s : InitState) (acc : List Sample)
      (appl : ℕ) (L : ℚ) (fuel : ℕ),
      ms ≠ [] →
      (∃ lastSol, (solver x0 s (x0 + clampLen cutoff x0 L)).getLast?
          = some lastSol ∧ 0 ≤ lastSol.y) →
      (acc ++ (solver x0 s (x0 + clampLen cutoff x0 L)).take
          (argmaxPos ((solver x0 s (x0 + clampLen cutoff x0 L)).map
            (fun t => t.y)))) ≠ [] →
      ∃ out, ∀ jump, integrateGrow solver jump cutoff ms x0 s acc appl L
          (fuel + 1) = .ok ⟨out, appl, true⟩ := by
  rintro solver cutoff ms x0 s acc appl L fuel hms ⟨lastSol, hlast, hy⟩ hkept
  have hfin : ∃ out, finalizeCrossing acc
      (solver x0 s (x0 + clampLen cutoff x0 L)) = some out := by
    unfold finalizeCrossing
    cases hk : (acc ++ (solver x0 s (x0 + clampLen cutoff x0 L)).take
        (argmaxPos ((solver x0 s (x0 + clampLen cutoff x0 L)).map
          (fun t => t.y)))).getLast? with
    | none =>
        rw [List.getLast?_eq_none_iff] at hk
        exact absurd hk hkept
    | some last => exact ⟨_, rfl⟩
  obtain ⟨out, hout⟩ := hfin
  refine ⟨out, fun jump => ?_⟩
  cases ms with
  | nil => exact absurd rfl hms
  | cons m rest =>
      obtain ⟨pos, M⟩ := m
      rw [integrateGrow]
      split
      · rename_i heq
        rw [hlast] at heq
        simp at heq
      · rename_i lastSol' heq
        rw [hlast] at heq
        have hl' : lastSol = lastSol' := Option.some.inj heq
        rw [if_pos (hl' ▸ hy)]
        split
        · rename_i heq2
          rw [hout] at heq2
          simp at heq2
        · rename_i out' heq2
          rw [hout] at heq2
          have ho : out = out' := Option.some.inj heq2
          subst ho
          simp

/-- Witness for C10: the concrete segment toward a pending load at `x = 30`
crosses the anchor, so integrate returns `ok` with the warning flag set and
no jump applied, for any jump oracle. -/
theorem C10_beyond_anchor_witness :
    ∃ out, integrateGrow cSolver noJump 10000 [(30, 80)] 0 cInit [] 0 30 1
        = .ok ⟨out, 0, true⟩ := by
  have h := C10_beyond_anchor cSolver 10000 [(30, 80)] 0 cInit [] 0 30 0
    (by simp)
    ⟨⟨3, 1 / 100, 3, 1 / 20, 1⟩,
      by norm_num [cSolver, cInit, clampLen, List.getLast?],
      by norm_num⟩
    (by norm_num [cSolver, cInit, clampLen, argmaxPos, List.findIdx,
      List.findIdx.go]
        simp)
  obtain ⟨out, hout⟩ := h
  exact ⟨out, hout noJump⟩

theorem getD_append_left (l l2 : List ℚ) (i : ℕ) (h : i < l.length) :
    (l ++ l2).getD i 0 = l.getD i 0 := by
  rw [List.getD_eq_getElem?_getD, List.getD_eq_getElem?_getD,
    List.getElem?_append_left h]

theorem getD_take_of_lt (l : List ℚ) (n i : ℕ) (h : i < n) :
    (l.take n).getD i 0 = l.getD i 0 := by
  rw [List.getD_eq_getElem?_getD, List.getD_eq_getElem?_getD,
    List.getElem?_take_of_lt h]

theorem linspaceQ_getD (x0 x1 : ℚ) (num i : ℕ) (hi : i < num) :
    (linspaceQ x0 x1 num).getD i 0
      = x0 + (x1 - x0) * (i : ℚ) / ((num : ℚ) - 1) := by
  unfold linspaceQ
  rw [List.getD_eq_getElem?_getD, List.getElem?_map, List.getElem?_range hi]
  rfl

/-- Claim C9 (amended): for a no-load run whose sampling oracle emits the
`np.linspace(x0, x1, 1000)` grid, the returned profile has at least two
samples and is equally spaced except at the appended anchor point: all
consecutive x-gaps other than the final one equal the linspace step.  The
final interpolated anchor gap `-y/y'` generally differs, so the grid is not
equally spaced overall even though `rig()` derives `dl`, `dn` and `T` with
the single step `dx = x[1] - x[0]` ("assuming constant step size!"). -/
theorem C9_grid_spacing :
    ∀ (solver : ℚ → InitState → ℚ → List Sample)
      (jump : Sample → ℚ → Option InitState) (cutoff : ℚ) (s0 : InitState)
      (fuel num : ℕ) (res : IntResult),
      (∀ x0 s x1, (solver x0 s x1).map (fun t => t.x)
        = linspaceQ x0 x1 num) →
      integrateModel solver jump [] cutoff s0 fuel = .ok res →
      2 ≤ res.samples.length ∧
      ∃ step : ℚ, ∀ i, i + 2 < res.samples.length →
        (res.samples.map (fun t => t.x)).getD (i + 1) 0
          - (res.samples.map (fun t => t.x)).getD i 0 = step := by
  intro solver jump cutoff s0 fuel num res hlin h
  have h' : integrateGrow solver jump cutoff [] 0 s0 [] 0 1000 fuel
      = .ok res := h
  obtain ⟨⟨L2, hfin⟩, _, _⟩ :=
    grow_noMass_ok solver jump cutoff fuel 0 s0 [] 0 1000 res h'
  have hx : (solver 0 s0 (0 + clampLen cutoff 0 L2)).map (fun t => t.x)
      = linspaceQ 0 (0 + clampLen cutoff 0 L2) num :=
    hlin 0 s0 (0 + clampLen cutoff 0 L2)
  have hslen : (solver 0 s0 (0 + clampLen cutoff 0 L2)).length = num := by
    have hl := congrArg List.length hx
    simpa [linspaceQ] using hl
  unfold finalizeCrossing at hfin
  split at hfin
  · exact absurd hfin (by simp)
  · rename_i last hlast
    simp only [Option.some.injEq] at hfin
    have hkeptne : (solver 0 s0 (0 + clampLen cutoff 0 L2)).take
        (argmaxPos ((solver 0 s0 (0 + clampLen cutoff 0 L2)).map
          (fun s => s.y))) ≠ [] := by
      intro hnil
      rw [List.nil_append] at hlast
      rw [hnil] at hlast
      simp at hlast
    have hkeptpos : 0 < ((solver 0 s0 (0 + clampLen cutoff 0 L2)).take
        (argmaxPos ((solver 0 s0 (0 + clampLen cutoff 0 L2)).map
          (fun s => s.y)))).length :=
      List.length_pos.mpr hkeptne
    constructor
    · rw [← hfin]
      simp only [List.nil_append, List.length_append, List.length_cons,
        List.length_nil]
      omega
    · refine ⟨clampLen cutoff 0 L2 / ((num : ℚ) - 1), ?_⟩
      intro i hi
      rw [← hfin] at hi ⊢
      simp only [List.nil_append, List.length_append, List.length_cons,
        List.length_nil, List.length_take, hslen] at hi
      have hij : i + 1 < min (argmaxPos ((solver 0 s0
          (0 + clampLen cutoff 0 L2)).map (fun s => s.y))) num := by omega
      have hi1j : i + 1 < argmaxPos ((solver 0 s0
          (0 + clampLen cutoff 0 L2)).map (fun s => s.y)) :=
        lt_of_lt_of_le hij (min_le_left _ _)
      have hinum : i + 1 < num := lt_of_lt_of_le hij (min_le_right _ _)
      simp only [List.nil_append, List.map_append, List.map_take]
      rw [getD_append_left _ _ (i + 1)
          (by rw [List.length_take, List.length_map, hslen]; omega),
        getD_append_left _ _ i
          (by rw [List.length_take, List.length_map, hslen]; omega),
        getD_take_of_lt _ _ _ hi1j,
        getD_take_of_lt _ _ _ (by omega : i < argmaxPos ((solver 0 s0
          (0 + clampLen cutoff 0 L2)).map (fun s => s.y))),
        hx, linspaceQ_getD _ _ _ _ hinum,
        linspaceQ_getD _ _ _ _ (by omega : i < num)]
      push_cast [Nat.cast_add]
      ring

/-- Witness for C9: a run through a linspace-sampling oracle whose pre-anchor
gaps are all equal to the linspace step. -/
theorem C9_grid_spacing_witness :
    2 ≤ lOut.length ∧
    ∃ step : ℚ, ∀ i, i + 2 < lOut.length →
      (lOut.map (fun t => t.x)).getD (i + 1) 0
        - (lOut.map (fun t => t.x)).getD i 0 = step := by
  have hrun : integrateModel lSolver noJump [] 10000 cInit 5
      = .ok ⟨lOut, 0, false⟩ := by
    norm_num [integrateModel, integrateGrow, removeAnchorMasses, lSolver,
      linspaceQ, List.range_succ, cInit, lOut, finalizeCrossing, argmaxPos,
      nextSegLen, List.findIdx, List.findIdx.go, List.getLast?, clampLen]
  exact C9_grid_spacing lSolver noJump 10000 cInit 5 4 ⟨lOut, 0, false⟩
    (fun x0 s x1 => by
      simp only [lSolver, List.map_map]
      exact List.map_id _) hrun

/-- Counterexample for C9 as stated: a concrete no-load run returns samples
whose x-gaps are 1, 1, 2 — the appended anchor sample breaks equal
spacing. -/
theorem C9_counterexample :
    integrateModel cSolver2 noJump [] 10000 cInit 5 = .ok ⟨cOut2, 0, false⟩
    ∧ ¬ (∀ i, i + 2 ≤ (cOut2.map (fun t => t.x)).length →
        (cOut2.map (fun t => t.x)).getD (i + 1) 0
          - (cOut2.map (fun t => t.x)).getD i 0
          = (cOut2.map (fun t => t.x)).getD 1 0
            - (cOut2.map (fun t => t.x)).getD 0 0) := by
  constructor
  · norm_num [integrateModel, integrateGrow, removeAnchorMasses, cSolver2,
      cInit, cOut2, finalizeCrossing, argmaxPos, nextSegLen, List.findIdx,
      List.findIdx.go, List.getLast?, clampLen]
  · intro hall
    have h2 := hall 2 (by norm_num [cOut2])
    norm_num [cOut2, List.getD_cons_succ, List.getD_cons_zero] at h2

end Slackline
